import Mathlib

/-!
# Verification of `src/train_infer/text_sample.py`

Shallow embedding of the sampling / decoding / validation pipeline of
`minimal-text-diffusion`'s `text_sample.py`, together with theorems settling
the specification claims about it.

Conventions of the embedding:
* Python strings are `String`, Python `set`s of tokens are `Finset String`,
  Python float similarity scores and embedding coordinates are `ℚ`
  (exact arithmetic; the claims under study are about comparison and argmax
  logic, not float rounding).
* Python exceptions are `Except` values; an `assert` failure is the
  `ValidationError` branch, a missing dict key is a `KeyError`/`DecodingError`
  branch, out-of-range list indexing is an `IndexError` branch, and a `0/0`
  Jaccard computation is a `ZeroDivisionError` branch.
* The external file system is a function `String → List String` mapping a
  path to the list of lines `readlines` would return for it.
-/

namespace TextSample

/-! ## Tokenization (`line.strip().split()`)

Python's argumentless `str.split` splits on runs of whitespace and discards
empty fragments, so a preceding `strip()` is absorbed by it.  The generated
and reference lines are compared as Python `set`s of tokens.  The splitter
recurses over the character list (`cur` is the current fragment, reversed)
so that it evaluates by kernel reduction. -/

/-- Worker for `pySplit`: `cur` holds the characters of the fragment being
read, in reverse order. -/
def pySplitAux : List Char → List Char → List String
  | [], cur => if cur.isEmpty then [] else [String.mk cur.reverse]
  | c :: cs, cur =>
    if c.isWhitespace then
      if cur.isEmpty then pySplitAux cs []
      else String.mk cur.reverse :: pySplitAux cs []
    else pySplitAux cs (c :: cur)

/-- `s.split()` in Python: split on whitespace runs, no empty fragments. -/
def pySplit (s : String) : List String :=
  pySplitAux s.toList []

/-- The token set `set(s.strip().split())` used by the sanity check. -/
def pyTokens (s : String) : Finset String :=
  (pySplit s).toFinset

/-! ## The validator of `write_outputs` (text_sample.py lines 147-157) -/

/-- Diagnostic payload of the failed `assert` at line 157: the message carries
the line index `i`, the Jaccard value, the reference token set, the generated
token set, and `common` (the *intersection* of the two sets). -/
structure ValidationError where
  index : ℕ
  jaccard : ℚ
  refToks : Finset String
  genToks : Finset String
  common : Finset String
deriving DecidableEq

/-- The exceptions `write_outputs` can raise while validating. -/
inductive PyError where
  /-- the `assert jaccard > 0.9` at line 157 failed -/
  | validation : ValidationError → PyError
  /-- `sentences[i]` with `i ≥ len(sentences)` (line 153) -/
  | indexError : ℕ → PyError
  /-- `len(common) / len(union)` with an empty union (line 156) -/
  | zeroDivision : ℕ → PyError
deriving DecidableEq

/-- `jaccard = len(common) / len(union)` of line 156: Jaccard similarity of
the token sets of a reference line and a generated sentence (junk value `0`
when the union is empty; `validate` raises `ZeroDivisionError` before using
it in that case, as the code does). -/
def pairJaccard (ref gen : String) : ℚ :=
  ((pyTokens ref ∩ pyTokens gen).card : ℚ) / ((pyTokens ref ∪ pyTokens gen).card : ℚ)

/-- One step of the `for i, sanity_check_line in enumerate(sanity_check_lines)`
loop (lines 151-157): `i` is the current index, the last argument the
remaining reference lines. -/
def validateFrom (sentences : List String) : ℕ → List String → Except PyError Unit
  | _, [] => .ok ()
  | i, line :: rest =>
    match sentences[i]? with
    | none => .error (.indexError i)
    | some gen =>
      if (pyTokens line ∪ pyTokens gen).card = 0 then .error (.zeroDivision i)
      else if pairJaccard line gen > 9 / 10 then validateFrom sentences (i + 1) rest
      else .error (.validation
        ⟨i, pairJaccard line gen, pyTokens line, pyTokens gen,
          pyTokens line ∩ pyTokens gen⟩)

/-- The sanity-check loop of `write_outputs` (lines 151-157): iterate over all
reference lines, aborting at the first index whose Jaccard similarity is not
`> 0.9`. -/
def validate (sanityLines sentences : List String) : Except PyError Unit :=
  validateFrom sentences 0 sanityLines

/-! Characterization of the threshold test over the natural-number cardinals,
so that concrete instances can be settled by `decide` (the rational division
itself does not evaluate by kernel reduction). -/

lemma pairJaccard_eq (ref gen : String) :
    pairJaccard ref gen =
      ((pyTokens ref ∩ pyTokens gen).card : ℚ) / ((pyTokens ref ∪ pyTokens gen).card : ℚ) := rfl

lemma pairJaccard_gt_ratio (ref gen : String)
    (hu : (pyTokens ref ∪ pyTokens gen).card ≠ 0) :
    pairJaccard ref gen > 9 / 10 ↔
      9 * (pyTokens ref ∪ pyTokens gen).card < 10 * (pyTokens ref ∩ pyTokens gen).card := by
  have hupos : (0 : ℚ) < ((pyTokens ref ∪ pyTokens gen).card : ℚ) := by
    exact_mod_cast Nat.pos_of_ne_zero hu
  rw [pairJaccard_eq, gt_iff_lt, div_lt_div_iff₀ (by norm_num) hupos,
    mul_comm ((pyTokens ref ∩ pyTokens gen).card : ℚ) 10]
  exact_mod_cast Iff.rfl

lemma pairJaccard_le_ratio (ref gen : String)
    (hu : (pyTokens ref ∪ pyTokens gen).card ≠ 0) :
    pairJaccard ref gen ≤ 9 / 10 ↔
      10 * (pyTokens ref ∩ pyTokens gen).card ≤ 9 * (pyTokens ref ∪ pyTokens gen).card := by
  rw [← not_lt, ← gt_iff_lt, pairJaccard_gt_ratio ref gen hu, not_lt]

/-- Index `i` of the reference corpus passes the sanity check against
`sentences`: the generated sentence exists, the token-set union is nonempty
(no `ZeroDivisionError`), and the Jaccard similarity exceeds `0.9`. -/
def linePasses (sentences : List String) (i : ℕ) (line : String) : Prop :=
  ∃ g, sentences[i]? = some g ∧ (pyTokens line ∪ pyTokens g).card ≠ 0 ∧
    pairJaccard line g > 9 / 10

lemma validateFrom_ok (s : List String) :
    ∀ (lines : List String) (k : ℕ),
      (∀ j, j < lines.length → linePasses s (k + j) (lines.getD j "")) →
      validateFrom s k lines = .ok ()
  | [], _, _ => rfl
  | line :: rest, k, h => by
    have h0 := h 0 (Nat.succ_pos _)
    rw [Nat.add_zero, List.getD_cons_zero] at h0
    obtain ⟨g, hg, hu, hgt⟩ := h0
    simp only [validateFrom, hg]
    rw [if_neg hu, if_pos hgt]
    exact validateFrom_ok s rest (k + 1) (fun j hj => by
      have hshift := h (j + 1) (Nat.succ_lt_succ hj)
      rw [List.getD_cons_succ] at hshift
      rw [show k + (j + 1) = k + 1 + j from by omega] at hshift
      exact hshift)

lemma validateFrom_err (s : List String) :
    ∀ (lines : List String) (k i : ℕ), i < lines.length →
      (∀ j, j < i → linePasses s (k + j) (lines.getD j "")) →
      ∀ g, s[k + i]? = some g →
        (pyTokens (lines.getD i "") ∪ pyTokens g).card ≠ 0 →
        pairJaccard (lines.getD i "") g ≤ 9 / 10 →
        validateFrom s k lines = .error (.validation
          ⟨k + i, pairJaccard (lines.getD i "") g, pyTokens (lines.getD i ""),
            pyTokens g, pyTokens (lines.getD i "") ∩ pyTokens g⟩)
  | [], _, i, hi, _, _, _, _, _ => absurd hi (Nat.not_lt_zero i)
  | line :: rest, k, 0, _, _, g, hg, hu, hle => by
    rw [Nat.add_zero] at hg
    rw [List.getD_cons_zero] at hu hle ⊢
    simp only [validateFrom, hg]
    rw [if_neg hu, if_neg (not_lt.mpr hle), Nat.add_zero]
  | line :: rest, k, i + 1, hi, hpass, g, hg, hu, hle => by
    have h0 := hpass 0 (Nat.succ_pos _)
    rw [Nat.add_zero, List.getD_cons_zero] at h0
    obtain ⟨g0, hg0, hu0, hgt0⟩ := h0
    simp only [validateFrom, hg0]
    rw [if_neg hu0, if_pos hgt0]
    rw [List.getD_cons_succ] at hu hle ⊢
    have hg' : s[k + 1 + i]? = some g := by
      rw [show k + 1 + i = k + (i + 1) from by omega]; exact hg
    have hrec := validateFrom_err s rest (k + 1) i (Nat.lt_of_succ_lt_succ hi)
      (fun j hj => by
        have hshift := hpass (j + 1) (Nat.succ_lt_succ hj)
        rw [List.getD_cons_succ] at hshift
        rw [show k + (j + 1) = k + 1 + j from by omega] at hshift
        exact hshift)
      g hg' hu hle
    rw [hrec, show k + 1 + i = k + (i + 1) from by omega]

/-- Scenario B evaluated: reference "the cat sat" against generated
"the cat sit" raises the assertion error with index 0, Jaccard 1/2, the two
token sets, and their intersection. -/
lemma validate_scenarioB :
    validate ["the cat sat"] ["the cat sit"] = .error (.validation
      ⟨0, 1 / 2, {"the", "cat", "sat"}, {"the", "cat", "sit"}, {"the", "cat"}⟩) := by
  have hu : (pyTokens "the cat sat" ∪ pyTokens "the cat sit").card ≠ 0 := by decide
  have hj : pairJaccard "the cat sat" "the cat sit" = 1 / 2 := by
    rw [pairJaccard_eq]
    rw [show (pyTokens "the cat sat" ∩ pyTokens "the cat sit").card = 2 from by decide,
      show (pyTokens "the cat sat" ∪ pyTokens "the cat sit").card = 4 from by decide]
    norm_num
  simp only [validate, validateFrom, List.getElem?_cons_zero, if_neg hu, hj]
  rw [if_neg (by norm_num : ¬ ((1 : ℚ) / 2 > 9 / 10))]
  rw [show pyTokens "the cat sat" = {"the", "cat", "sat"} from by decide,
    show pyTokens "the cat sit" = {"the", "cat", "sit"} from by decide,
    show ({"the", "cat", "sat"} : Finset String) ∩ {"the", "cat", "sit"} = {"the", "cat"}
      from by decide]

/-- **C1.** The sanity check of `write_outputs`: every reference index whose
pair passes (Jaccard `> 0.9`) is accepted with no error; at the first index
whose similarity is `≤ 0.9` a `ValidationError` is raised carrying the index,
the similarity value, both token sets, and their **intersection** (the
`common` variable), aborting the scan.  Scenario B: "the cat sat" vs
"the cat sit" has Jaccard `1/2` and raises the error. -/
theorem claim_C1_validator_threshold (ref gen : List String) :
    ((∀ j, j < ref.length → linePasses gen j (ref.getD j "")) →
      validate ref gen = .ok ()) ∧
    (∀ i, i < ref.length →
      (∀ j, j < i → linePasses gen j (ref.getD j "")) →
      ∀ g, gen[i]? = some g →
        (pyTokens (ref.getD i "") ∪ pyTokens g).card ≠ 0 →
        pairJaccard (ref.getD i "") g ≤ 9 / 10 →
        validate ref gen = .error (.validation
          ⟨i, pairJaccard (ref.getD i "") g, pyTokens (ref.getD i ""),
            pyTokens g, pyTokens (ref.getD i "") ∩ pyTokens g⟩)) ∧
    (pairJaccard "the cat sat" "the cat sit" = 1 / 2 ∧
      validate ["the cat sat"] ["the cat sit"] = .error (.validation
        ⟨0, 1 / 2, {"the", "cat", "sat"}, {"the", "cat", "sit"}, {"the", "cat"}⟩)) := by
  refine ⟨?_, ?_, ?_, ?_⟩
  · intro h
    exact validateFrom_ok gen ref 0 (fun j hj => by
      rw [Nat.zero_add]; exact h j hj)
  · intro i hi hpass g hg hu hle
    have herr := validateFrom_err gen ref 0 i hi
      (fun j hj => by rw [Nat.zero_add]; exact hpass j hj) g
      (by rw [Nat.zero_add]; exact hg) hu hle
    rw [Nat.zero_add] at herr
    exact herr
  · rw [pairJaccard_eq]
    rw [show (pyTokens "the cat sat" ∩ pyTokens "the cat sit").card = 2 from by decide,
      show (pyTokens "the cat sat" ∪ pyTokens "the cat sit").card = 4 from by decide]
    norm_num
  · exact validate_scenarioB

/-- **C1 witness.** A concrete all-passing run is accepted, via the theorem. -/
theorem claim_C1_validator_threshold_witness :
    validate ["the cat sat"] ["the cat sat"] = .ok () := by
  apply (claim_C1_validator_threshold ["the cat sat"] ["the cat sat"]).1
  intro j hj
  have hj0 : j = 0 := by simpa using hj
  subst hj0
  exact ⟨"the cat sat", rfl, by decide,
    (pairJaccard_gt_ratio _ _ (by decide)).mpr (by decide)⟩

/-- **C1 counterexample.** The claim as stated is false: at scenario B the
raised error's set-diagnostic field is the *intersection* `{"the","cat"}` of
the two token sets, not their symmetric difference `{"sat","sit"}`. -/
theorem claim_C1_counterexample :
    validate ["the cat sat"] ["the cat sit"] = .error (.validation
      ⟨0, 1 / 2, {"the", "cat", "sat"}, {"the", "cat", "sit"}, {"the", "cat"}⟩) ∧
    ({"the", "cat"} : Finset String) ≠
      (({"the", "cat", "sat"} : Finset String) \ {"the", "cat", "sit"}) ∪
        (({"the", "cat", "sit"} : Finset String) \ {"the", "cat", "sat"}) ∧
    (({"the", "cat", "sat"} : Finset String) \ {"the", "cat", "sit"}) ∪
        (({"the", "cat", "sit"} : Finset String) \ {"the", "cat", "sat"}) =
      {"sat", "sit"} := by
  exact ⟨validate_scenarioB, by decide, by decide⟩

/-! ## The sampling loop of `main` (text_sample.py lines 71-99)

```
all_samples = []
while len(all_samples) * args.batch_size < args.num_samples:
    sample = sample_fn(...)                       # worker-local batch
    gathered_samples = [zeros_like(sample) for _ in range(world_size)]
    dist.all_gather(gathered_samples, sample)     # one array per rank
    all_samples.extend([s.cpu().numpy() for s in gathered_samples])
arr = np.concatenate(all_samples, axis=0)
arr = arr[: args.num_samples * args.mbr_sample]
```

Samples are abstracted to an arbitrary type `α`; `localSample r w` is the
batch worker `w` contributes in round `r` (an arbitrary list, constrained to
length `batch_size` by hypotheses where the shapes matter).  `all_samples`
is a list of per-rank arrays, exactly as in the code, and the loop condition
multiplies its *length* by `batch_size`. -/

/-- The list `gathered_samples` filled by `dist.all_gather` in round `r`:
one array per rank, in ascending rank order. -/
def roundGather (W : ℕ) (localSample : ℕ → ℕ → List α) (r : ℕ) : List (List α) :=
  (List.range W).map (fun w => localSample r w)

/-- The value of `all_samples` after `r` completed gather rounds. -/
def allSamplesAfter (W : ℕ) (localSample : ℕ → ℕ → List α) : ℕ → List (List α)
  | 0 => []
  | r + 1 => allSamplesAfter W localSample r ++ roundGather W localSample r

/-- The `while` loop, with explicit fuel (the loop adds at least one array per
round, so `num_samples` rounds of fuel always suffice when `batch_size` and
the world size are positive): arguments are fuel, the current round index,
and the current `all_samples`. -/
def sampleLoop (B num W : ℕ) (localSample : ℕ → ℕ → List α) :
    ℕ → ℕ → List (List α) → List (List α)
  | 0, _, acc => acc
  | fuel + 1, r, acc =>
    if acc.length * B < num then
      sampleLoop B num W localSample fuel (r + 1) (acc ++ roundGather W localSample r)
    else acc

/-- `all_samples` once the `while` loop has finished. -/
def allSamples (B num W : ℕ) (localSample : ℕ → ℕ → List α) : List (List α) :=
  sampleLoop B num W localSample num 0 []

/-- `arr = np.concatenate(all_samples, axis=0)`: the accumulated corpus as a
flat list of samples. -/
def sampledArr (B num W : ℕ) (localSample : ℕ → ℕ → List α) : List α :=
  (allSamples B num W localSample).flatten

/-- `arr = arr[: args.num_samples * args.mbr_sample]`: the corpus actually
passed to decoding. -/
def finalCorpus (B num W mbr : ℕ) (localSample : ℕ → ℕ → List α) : List α :=
  (sampledArr B num W localSample).take (num * mbr)

lemma roundGather_length (W : ℕ) (localSample : ℕ → ℕ → List α) (r : ℕ) :
    (roundGather W localSample r).length = W := by
  simp [roundGather]

lemma allSamplesAfter_length (W : ℕ) (localSample : ℕ → ℕ → List α) :
    ∀ r, (allSamplesAfter W localSample r).length = r * W
  | 0 => by simp [allSamplesAfter]
  | r + 1 => by
    simp [allSamplesAfter, allSamplesAfter_length W localSample r,
      roundGather_length, Nat.succ_mul]

/-- The loop only ever visits accumulators of the form `allSamplesAfter r`:
its result is the state after some number `R` of completed rounds. -/
lemma sampleLoop_trace (B num W : ℕ) (localSample : ℕ → ℕ → List α) :
    ∀ (fuel r : ℕ), ∃ R, r ≤ R ∧
      sampleLoop B num W localSample fuel r (allSamplesAfter W localSample r) =
        allSamplesAfter W localSample R
  | 0, r => ⟨r, le_rfl, rfl⟩
  | fuel + 1, r => by
    by_cases h : (allSamplesAfter W localSample r).length * B < num
    · obtain ⟨R, hR, hres⟩ := sampleLoop_trace B num W localSample fuel (r + 1)
      exact ⟨R, by omega, by rw [sampleLoop, if_pos h]; exact hres⟩
    · exact ⟨r, le_rfl, by rw [sampleLoop, if_neg h]⟩

/-- On exit (with enough fuel), the loop condition has failed: the
accumulated count has reached `num`. -/
lemma sampleLoop_exit (B num W : ℕ) (localSample : ℕ → ℕ → List α)
    (hB : 0 < B) (hW : 0 < W) :
    ∀ (fuel r : ℕ) (acc : List (List α)),
      num ≤ acc.length * B + fuel * (W * B) →
      num ≤ (sampleLoop B num W localSample fuel r acc).length * B
  | 0, _, acc, hfuel => by
    rw [sampleLoop]
    omega
  | fuel + 1, r, acc, hfuel => by
    rw [sampleLoop]
    split
    · apply sampleLoop_exit B num W localSample hB hW fuel
      rw [List.length_append, roundGather_length]
      have heq : (acc.length + W) * B + fuel * (W * B)
          = acc.length * B + (fuel + 1) * (W * B) := by ring
      rw [heq]
      exact hfuel
    · omega

lemma allSamples_length_ge (B num W : ℕ) (localSample : ℕ → ℕ → List α)
    (hB : 0 < B) (hW : 0 < W) :
    num ≤ (allSamples B num W localSample).length * B := by
  apply sampleLoop_exit B num W localSample hB hW num 0 []
  simp only [List.length_nil, Nat.zero_mul, Nat.zero_add]
  calc num = num * 1 := by omega
    _ ≤ num * (W * B) := Nat.mul_le_mul_left num (Nat.mul_pos hW hB)

/-- Every array in `all_samples` is a per-rank batch of length `batch_size`. -/
lemma allSamplesAfter_mem_length (W B : ℕ) (localSample : ℕ → ℕ → List α)
    (hlen : ∀ r w, (localSample r w).length = B) :
    ∀ r, ∀ l ∈ allSamplesAfter W localSample r, l.length = B
  | 0, l, hl => absurd hl (List.not_mem_nil l)
  | r + 1, l, hl => by
    rw [allSamplesAfter, List.mem_append] at hl
    rcases hl with hl | hl
    · exact allSamplesAfter_mem_length W B localSample hlen r l hl
    · rw [roundGather, List.mem_map] at hl
      obtain ⟨w, _, rfl⟩ := hl
      exact hlen r w

lemma flatten_length_of_uniform (B : ℕ) :
    ∀ (l : List (List α)), (∀ x ∈ l, x.length = B) →
      l.flatten.length = l.length * B
  | [], _ => by simp
  | x :: xs, h => by
    rw [List.flatten_cons, List.length_append, List.length_cons,
      flatten_length_of_uniform B xs (fun y hy => h y (List.mem_cons_of_mem x hy)),
      h x (List.mem_cons_self x xs)]
    ring

/-- **C6.** After each completed gather round, the accumulated sample count
equals `rounds * (batch_size * world_size)` — in particular it is always an
exact multiple of `batch_size * world_size` — and the sampling loop's result
is the accumulator after some number of completed rounds. -/
theorem claim_C6_count_multiple_invariant {α : Type} (B W : ℕ)
    (localSample : ℕ → ℕ → List α)
    (hlen : ∀ r w, (localSample r w).length = B) :
    (∀ r, ((allSamplesAfter W localSample r).flatten).length = r * (B * W) ∧
      (B * W) ∣ ((allSamplesAfter W localSample r).flatten).length) ∧
    (∀ num, ∃ R, allSamples B num W localSample = allSamplesAfter W localSample R) := by
  constructor
  · intro r
    have hflat : ((allSamplesAfter W localSample r).flatten).length
        = (allSamplesAfter W localSample r).length * B :=
      flatten_length_of_uniform B _ (allSamplesAfter_mem_length W B localSample hlen r)
    have hcount : ((allSamplesAfter W localSample r).flatten).length = r * (B * W) := by
      rw [hflat, allSamplesAfter_length]; ring
    exact ⟨hcount, hcount ▸ ⟨r, by ring⟩⟩
  · intro num
    obtain ⟨R, _, hres⟩ := sampleLoop_trace B num W localSample num 0
    exact ⟨R, hres⟩

/-- **C6 witness.** Concrete instance: batch size 2, world size 3; after 2
rounds the corpus holds `2 * (2 * 3) = 12` samples, and the loop result for
`num_samples = 7` is the state after some complete number of rounds. -/
theorem claim_C6_count_multiple_invariant_witness :
    ((allSamplesAfter 3 (fun _ _ => [0, 0]) 2).flatten).length = 2 * (2 * 3) ∧
    (∃ R, allSamples 2 7 3 (fun _ _ => ([0, 0] : List ℕ))
      = allSamplesAfter 3 (fun _ _ => [0, 0]) R) :=
  ⟨(claim_C6_count_multiple_invariant 2 3 (fun _ _ => ([0, 0] : List ℕ))
      (fun _ _ => rfl)).1 2 |>.1,
    (claim_C6_count_multiple_invariant 2 3 (fun _ _ => ([0, 0] : List ℕ))
      (fun _ _ => rfl)).2 7⟩

/-- **C2 (amended).** After the collecting loop ends the accumulated corpus
holds at least `num_samples` samples, and the slice
`arr[: num_samples * mbr_sample]` passes
`min(accumulated, num_samples * mbr_sample)` samples to decoding; this equals
`num_samples * mbr_sample` exactly whenever enough samples were accumulated —
in particular always when `mbr_sample = 1` — but is smaller when
`mbr_sample > 1` outruns the accumulated corpus. -/
theorem claim_C2_truncation_exact {α : Type} (B num W mbr : ℕ)
    (localSample : ℕ → ℕ → List α) (hB : 0 < B) (hW : 0 < W)
    (hlen : ∀ r w, (localSample r w).length = B) :
    num ≤ (sampledArr B num W localSample).length ∧
    (finalCorpus B num W mbr localSample).length =
      min (num * mbr) (sampledArr B num W localSample).length ∧
    (mbr = 1 → (finalCorpus B num W mbr localSample).length = num * mbr) := by
  obtain ⟨R, _, hres⟩ := sampleLoop_trace B num W localSample num 0
  have hmem : ∀ l ∈ allSamples B num W localSample, l.length = B := by
    intro l hl
    rw [show allSamples B num W localSample
        = allSamplesAfter W localSample R from hres] at hl
    exact allSamplesAfter_mem_length W B localSample hlen R l hl
  have hflat : (sampledArr B num W localSample).length
      = (allSamples B num W localSample).length * B :=
    flatten_length_of_uniform B _ hmem
  have hge : num ≤ (sampledArr B num W localSample).length := by
    rw [hflat]; exact allSamples_length_ge B num W localSample hB hW
  refine ⟨hge, List.length_take _ _, fun hmbr => ?_⟩
  subst hmbr
  rw [finalCorpus, List.length_take, Nat.mul_one]
  exact Nat.min_eq_left hge

/-- **C2 witness.** Concrete run with `batch_size = 1`, `num_samples = 2`,
one worker, `mbr_sample = 1`: exactly `2 * 1` samples reach decoding. -/
theorem claim_C2_truncation_exact_witness :
    (finalCorpus 1 2 1 1 (fun _ _ => [(7 : ℕ)])).length = 2 * 1 :=
  (claim_C2_truncation_exact 1 2 1 1 (fun _ _ => [(7 : ℕ)])
    (by decide) (by decide) (fun _ _ => rfl)).2.2 rfl

/-- **C2 counterexample.** The claim as stated is false: with
`batch_size = 1`, one worker, `num_samples = 1 ≥ 1` and `mbr_sample = 2 ≥ 1`,
the loop stops after accumulating a single sample, and the slice
`arr[: 1 * 2]` passes only `1 ≠ 1 * 2` samples to decoding. -/
theorem claim_C2_counterexample :
    1 ≤ (1 : ℕ) ∧ 1 ≤ (2 : ℕ) ∧
    (finalCorpus 1 1 1 2 (fun _ _ => [(0 : ℕ)])).length = 1 ∧
    (1 : ℕ) ≠ 1 * 2 :=
  ⟨le_rfl, by omega, rfl, by omega⟩

/-! ## DistributedAggregator: `dist.all_gather` (text_sample.py lines 92-94)

`torch.distributed` is an external collaborator: only its call site is in the
repository.  The gather operation is therefore modelled from the spec. -/

/-- A worker failed to take part in the collective operation. -/
inductive DistributedError where
  | missingWorker : ℕ → DistributedError
deriving DecidableEq

/-- Modelled from the spec: the `dist.all_gather(gathered_samples, sample)`
collective of line 93 (torch.distributed, not part of this repository).
Per the spec's contract, `gather(local_batch)` "returns the concatenation of
all workers' batches in ascending rank order"; "if any worker fails to
contribute (crash, shape mismatch, rank gap) the whole operation fails with a
DistributedError — partial results are never returned".  `contrib w = none`
models worker `w` failing to contribute. -/
def gather (W : ℕ) (contrib : ℕ → Option (List α)) : Except DistributedError (List α) :=
  match (List.range W).find? (fun w => (contrib w).isNone) with
  | some w => .error (.missingWorker w)
  | none => .ok (((List.range W).map (fun w => (contrib w).getD [])).flatten)

/-- **C3.** With `W` workers each contributing a batch of `B` samples, gather
returns exactly the concatenation of the batches in ascending rank order —
`W * B` samples; if any worker fails to contribute, the operation fails with
a `DistributedError` naming a missing worker, never returning a smaller
corpus. -/
theorem claim_C3_gather_contract {α : Type} (W B : ℕ) :
    (∀ (batch : ℕ → List α) (contrib : ℕ → Option (List α)),
      (∀ w, w < W → contrib w = some (batch w)) →
      (∀ w, w < W → (batch w).length = B) →
      gather W contrib = .ok (((List.range W).map batch).flatten) ∧
      (((List.range W).map batch).flatten).length = W * B) ∧
    (∀ (contrib : ℕ → Option (List α)) (w : ℕ), w < W → contrib w = none →
      ∃ w', w' < W ∧ contrib w' = none ∧
        gather W contrib = .error (.missingWorker w')) := by
  constructor
  · intro batch contrib hall hB
    have hfind : (List.range W).find? (fun w => (contrib w).isNone) = none := by
      rw [List.find?_eq_none]
      intro w hw
      rw [hall w (List.mem_range.mp hw)]
      simp
    constructor
    · rw [gather, hfind]
      refine congrArg _ (congrArg _ (List.map_congr_left ?_))
      intro w hw
      rw [hall w (List.mem_range.mp hw)]
      rfl
    · rw [flatten_length_of_uniform B]
      · rw [List.length_map, List.length_range]
      · intro x hx
        obtain ⟨w, hw, rfl⟩ := List.mem_map.mp hx
        exact hB w (List.mem_range.mp hw)
  · intro contrib w hw hnone
    cases hfind : (List.range W).find? (fun w => (contrib w).isNone) with
    | none =>
      exfalso
      have := List.find?_eq_none.mp hfind w (List.mem_range.mpr hw)
      rw [hnone] at this
      simp at this
    | some w' =>
      refine ⟨w', ?_, ?_, ?_⟩
      · exact List.mem_range.mp (List.mem_of_find?_eq_some hfind)
      · have := List.find?_some hfind
        simpa [Option.isNone_iff_eq_none] using this
      · rw [gather, hfind]

/-- **C3 witness.** Two workers of batch size 1: the full gather returns both
samples in rank order; dropping worker 1 yields a `DistributedError`. -/
theorem claim_C3_gather_contract_witness :
    gather 2 (fun w => some [w]) = .ok (((List.range 2).map (fun w => [w])).flatten) ∧
    (∃ w', w' < 2 ∧ (fun w => if w = 1 then none else some [(w : ℕ)]) w' = none ∧
      gather 2 (fun w => if w = 1 then none else some [(w : ℕ)])
        = .error (.missingWorker w')) :=
  ⟨((claim_C3_gather_contract 2 1).1 (fun w => [w]) (fun w => some [w])
      (fun _ _ => rfl) (fun _ _ => rfl)).1,
    (claim_C3_gather_contract 2 1).2 (fun w => if w = 1 then none else some [w])
      1 (by omega) rfl⟩

/-! ## `write_outputs` (text_sample.py lines 128-157): paths and files

`args.top_p` is interpolated into the file name with an f-string; the
embedding carries its formatted text.  `os.path.split` splits a path at its
last separator and `os.path.join` with a relative second component inserts
one separator; both are modelled for the plain relative paths the program
passes them. -/

/-- `os.path.split p`: `(head, tail)` at the last `/`. -/
def ospathSplit (p : String) : String × String :=
  (String.intercalate "/" (p.splitOn "/").dropLast, (p.splitOn "/").getLastD "")

/-- The fields of the argparse namespace that `write_outputs` reads for the
output path (lines 130-136). -/
structure WOArgs where
  model_name_or_path : String
  out_dir : String
  top_p : String
  diffusion_steps : ℕ
deriving DecidableEq

/-- Lines 130-133:
`os.path.basename(os.path.split(p)[0]) + f".{os.path.split(p)[1]}"`
(`os.path.basename x` is `os.path.split(x)[1]`). -/
def model_base_name (a : WOArgs) : String :=
  (ospathSplit (ospathSplit a.model_name_or_path).1).2 ++ "."
    ++ (ospathSplit a.model_name_or_path).2

/-- The file name `f"{model_base_name}.samples_{args.top_p}.steps={args.diffusion_steps}"`. -/
def outputFileName (a : WOArgs) : String :=
  model_base_name a ++ ".samples_" ++ a.top_p ++ ".steps=" ++ toString a.diffusion_steps

/-- Lines 134-136: `os.path.join(args.out_dir, ...)`. -/
def output_file_basepath (a : WOArgs) : String :=
  a.out_dir ++ "/" ++ outputFileName a

/-- Lowercase hexadecimal digit, as CPython prints `\uXXXX` escapes. -/
def hexDigit (n : ℕ) : Char :=
  if n < 10 then Char.ofNat (48 + n) else Char.ofNat (87 + n)

/-- Four lowercase hex digits. -/
def hex4 (n : ℕ) : String :=
  String.mk [hexDigit (n / 4096 % 16), hexDigit (n / 256 % 16),
    hexDigit (n / 16 % 16), hexDigit (n % 16)]

/-- `json.dumps` escaping of one character (default `ensure_ascii=True`):
quote and backslash get two-character escapes, the usual control shorthands
apply, other control characters and all non-ASCII characters become
`\uXXXX` (a surrogate pair beyond the BMP). -/
def jsonEscapeChar (c : Char) : String :=
  if c = '"' then "\\\""
  else if c = '\\' then "\\\\"
  else if c = '\n' then "\\n"
  else if c = '\t' then "\\t"
  else if c = '\r' then "\\r"
  else if c.toNat = 8 then "\\b"
  else if c.toNat = 12 then "\\f"
  else if c.toNat < 32 then "\\u" ++ hex4 c.toNat
  else if c.toNat < 128 then String.singleton c
  else if c.toNat < 65536 then "\\u" ++ hex4 c.toNat
  else "\\u" ++ hex4 (55296 + (c.toNat - 65536) / 1024)
    ++ "\\u" ++ hex4 (56320 + (c.toNat - 65536) % 1024)

/-- `json.dumps([s])` for a single string `s`: a JSON array holding exactly
that one string. -/
def jsonDumpsSingleton (s : String) : String :=
  "[\"" ++ String.join (s.toList.map jsonEscapeChar) ++ "\"]"

/-- The text written to an output file whose lines are `lines`, each
terminated by a newline, in order. -/
def joinLines : List String → String
  | [] => ""
  | l :: ls => l ++ "\n" ++ joinLines ls

/-- The two files produced by the writing loop of lines 138-141: for each
sentence, in order, one `generated_sentence + "\n"` chunk to the `.txt`
file and one `json.dumps([generated_sentence]) + "\n"` chunk to the `.json`
file. -/
structure WrittenFiles where
  txtPath : String
  jsonPath : String
  txtContent : String
  jsonContent : String
deriving DecidableEq

/-- Lines 138-143: open both files, loop over the sentences appending to
each, close them. -/
def writeFiles (a : WOArgs) (sentences : List String) : WrittenFiles :=
  { txtPath := output_file_basepath a ++ ".txt"
    jsonPath := output_file_basepath a ++ ".json"
    txtContent := (sentences.foldl
      (fun acc s => (acc.1 ++ s ++ "\n", acc.2 ++ jsonDumpsSingleton s ++ "\n"))
      ("", "")).1
    jsonContent := (sentences.foldl
      (fun acc s => (acc.1 ++ s ++ "\n", acc.2 ++ jsonDumpsSingleton s ++ "\n"))
      ("", "")).2 }

/-- Line 147: the reference corpus is opened at this string literal. -/
def sanityReferencePath : String := "generation_outputs_emb128/two_steps_sanity_check.txt"

/-- The whole of `write_outputs` (lines 128-157): write both output files,
then read the sanity reference at the hardwired path from the file system
`fs` and validate the sentences against it.  The returned pair is (files
written, validation outcome). -/
def write_outputs (a : WOArgs) (sentences : List String) (fs : String → List String) :
    WrittenFiles × Except PyError Unit :=
  (writeFiles a sentences, validate (fs sanityReferencePath) sentences)

lemma writeFold_eq (sentences : List String) :
    ∀ t j : String,
      sentences.foldl
        (fun acc s => (acc.1 ++ s ++ "\n", acc.2 ++ jsonDumpsSingleton s ++ "\n"))
        (t, j)
      = (t ++ joinLines sentences,
          j ++ joinLines (sentences.map jsonDumpsSingleton)) := by
  induction sentences with
  | nil => intro t j; simp [joinLines]
  | cons s ss ih =>
    intro t j
    rw [List.foldl_cons, ih, List.map_cons]
    simp [joinLines, String.append_assoc]

/-- All-pass and all-fail evaluations used by the C5 counterexample. -/
lemma validate_ab_self_ok : validate ["a b"] ["a b"] = .ok () := by
  simp only [validate, validateFrom, List.getElem?_cons_zero]
  rw [if_neg (by decide : ¬ (pyTokens "a b" ∪ pyTokens "a b").card = 0),
    if_pos ((pairJaccard_gt_ratio "a b" "a b" (by decide)).mpr (by decide))]

lemma validate_zzz_ab_err :
    validate ["zzz"] ["a b"] = .error (.validation
      ⟨0, pairJaccard "zzz" "a b", pyTokens "zzz", pyTokens "a b",
        pyTokens "zzz" ∩ pyTokens "a b"⟩) := by
  simp only [validate, validateFrom, List.getElem?_cons_zero]
  rw [if_neg (by decide : ¬ (pyTokens "zzz" ∪ pyTokens "a b").card = 0),
    if_neg (by
      rw [pairJaccard_gt_ratio "zzz" "a b" (by decide)]
      decide)]

/-- **C4.** The writer emits, in input order, one newline-terminated line per
sentence to the `.txt` file and one line holding `json.dumps([sentence])`
(a JSON array with exactly that one string) to the `.json` file; the output
file name is determined by the model identifier, the top-p value and the step
count, so identical configurations write to identical paths. -/
theorem claim_C4_writer_format (a b : WOArgs) (sentences : List String) :
    (writeFiles a sentences).txtContent = joinLines sentences ∧
    (writeFiles a sentences).jsonContent
      = joinLines (sentences.map jsonDumpsSingleton) ∧
    (a.model_name_or_path = b.model_name_or_path → a.top_p = b.top_p →
      a.diffusion_steps = b.diffusion_steps →
      outputFileName a = outputFileName b) ∧
    (a = b →
      (writeFiles a sentences).txtPath = (writeFiles b sentences).txtPath ∧
      (writeFiles a sentences).jsonPath = (writeFiles b sentences).jsonPath) := by
  refine ⟨?_, ?_, ?_, ?_⟩
  · rw [writeFiles, writeFold_eq]
    simp
  · rw [writeFiles, writeFold_eq]
    simp
  · intro h1 h2 h3
    rw [outputFileName, outputFileName, model_base_name, model_base_name, h1, h2, h3]
  · intro h
    rw [h]
    exact ⟨rfl, rfl⟩

/-- **C4 witness.** Concrete writer run, and two configurations agreeing on
model identifier, top-p and step count (but different output directories)
getting the same file name. -/
theorem claim_C4_writer_format_witness :
    (writeFiles ⟨"ckpt/model.pt", "out", "1.0", 10⟩ ["hi there", "yo"]).txtContent
      = joinLines ["hi there", "yo"] ∧
    (writeFiles ⟨"ckpt/model.pt", "out", "1.0", 10⟩ ["hi there", "yo"]).jsonContent
      = joinLines (["hi there", "yo"].map jsonDumpsSingleton) ∧
    outputFileName ⟨"ckpt/model.pt", "out1", "1.0", 10⟩
      = outputFileName ⟨"ckpt/model.pt", "out2", "1.0", 10⟩ :=
  ⟨(claim_C4_writer_format ⟨"ckpt/model.pt", "out", "1.0", 10⟩
      ⟨"ckpt/model.pt", "out", "1.0", 10⟩ ["hi there", "yo"]).1,
    (claim_C4_writer_format ⟨"ckpt/model.pt", "out", "1.0", 10⟩
      ⟨"ckpt/model.pt", "out", "1.0", 10⟩ ["hi there", "yo"]).2.1,
    (claim_C4_writer_format ⟨"ckpt/model.pt", "out1", "1.0", 10⟩
      ⟨"ckpt/model.pt", "out2", "1.0", 10⟩ ["hi there", "yo"]).2.2.1 rfl rfl rfl⟩

/-- **C5 (amended).** The validator reads the reference corpus at the string
literal `"generation_outputs_emb128/two_steps_sanity_check.txt"` hardwired at
line 147: the path does not come from the run configuration (which carries no
reference-path field), the validation outcome is the same for every
configuration, and it depends on the file system only through that one
constant path. -/
theorem claim_C5_reference_path_is_constant (a b : WOArgs) (sentences : List String)
    (fs fs' : String → List String)
    (hfs : fs sanityReferencePath = fs' sanityReferencePath) :
    (write_outputs a sentences fs).2 = validate (fs sanityReferencePath) sentences ∧
    (write_outputs a sentences fs).2 = (write_outputs b sentences fs').2 := by
  refine ⟨rfl, ?_⟩
  simp only [write_outputs]
  rw [hfs]

/-- **C5 witness.** Concrete instantiation of the amended claim on two
configurations and two file systems agreeing at the constant path. -/
theorem claim_C5_reference_path_is_constant_witness :
    (write_outputs ⟨"ckpt/model.pt", "out", "1.0", 10⟩ ["a b"]
        (fun _ => ["a b"])).2
      = validate ((fun _ => ["a b"]) sanityReferencePath) ["a b"] ∧
    (write_outputs ⟨"ckpt/model.pt", "out", "1.0", 10⟩ ["a b"]
        (fun _ => ["a b"])).2
      = (write_outputs ⟨"other/model2.pt", "elsewhere", "0.5", 2⟩ ["a b"]
          (fun p => if p = sanityReferencePath then ["a b"] else ["x"])).2 :=
  claim_C5_reference_path_is_constant
    ⟨"ckpt/model.pt", "out", "1.0", 10⟩ ⟨"other/model2.pt", "elsewhere", "0.5", 2⟩
    ["a b"] (fun _ => ["a b"])
    (fun p => if p = sanityReferencePath then ["a b"] else ["x"]) (by simp)

/-- **C5 counterexample.** The claim as stated is false: the run
configuration supplies no reference path — two configurations differing in
every field give the same validation outcome, which is obtained by reading
the file system at the hardwired constant path (changing the file system at
that constant path flips the outcome from pass to fail). -/
theorem claim_C5_counterexample :
    (⟨"ckpt/model.pt", "out", "1.0", 10⟩ : WOArgs)
      ≠ ⟨"other/model2.pt", "elsewhere", "0.5", 2⟩ ∧
    (write_outputs ⟨"ckpt/model.pt", "out", "1.0", 10⟩ ["a b"]
        (fun _ => ["a b"])).2
      = (write_outputs ⟨"other/model2.pt", "elsewhere", "0.5", 2⟩ ["a b"]
          (fun _ => ["a b"])).2 ∧
    (write_outputs ⟨"ckpt/model.pt", "out", "1.0", 10⟩ ["a b"]
        (fun _ => ["a b"])).2
      = validate ((fun _ => ["a b"]) sanityReferencePath) ["a b"] ∧
    (write_outputs ⟨"ckpt/model.pt", "out", "1.0", 10⟩ ["a b"]
        (fun _ => ["a b"])).2
      ≠ (write_outputs ⟨"ckpt/model.pt", "out", "1.0", 10⟩ ["a b"]
          (fun _ => ["zzz"])).2 := by
  refine ⟨by decide, rfl, rfl, ?_⟩
  show validate ["a b"] ["a b"] ≠ validate ["zzz"] ["a b"]
  rw [validate_ab_self_ok, validate_zzz_ab_err]
  simp

/-- **C10.** If validation fails (the returned outcome is any error), the
`.txt` and `.json` files have nevertheless been completely written — one
line per sentence, in order — exactly as in a passing run: persistence of
the decoded corpus is unconditional on validation. -/
theorem claim_C10_files_written_despite_failure (a : WOArgs) (sentences : List String)
    (fs : String → List String) (e : PyError)
    (herr : (write_outputs a sentences fs).2 = .error e) :
    (write_outputs a sentences fs).1 = writeFiles a sentences ∧
    ((write_outputs a sentences fs).1).txtContent = joinLines sentences ∧
    ((write_outputs a sentences fs).1).jsonContent
      = joinLines (sentences.map jsonDumpsSingleton) := by
  refine ⟨rfl, ?_, ?_⟩
  · rw [write_outputs, writeFiles, writeFold_eq]
    simp
  · rw [write_outputs, writeFiles, writeFold_eq]
    simp

/-- **C10 witness.** Scenario B fails validation, yet both files hold the
complete decoded corpus. -/
theorem claim_C10_files_written_despite_failure_witness :
    (write_outputs ⟨"ckpt/model.pt", "out", "1.0", 10⟩ ["the cat sit"]
        (fun _ => ["the cat sat"])).1.txtContent = joinLines ["the cat sit"] ∧
    (write_outputs ⟨"ckpt/model.pt", "out", "1.0", 10⟩ ["the cat sit"]
        (fun _ => ["the cat sat"])).1.jsonContent
      = joinLines (["the cat sit"].map jsonDumpsSingleton) :=
  ⟨(claim_C10_files_written_despite_failure ⟨"ckpt/model.pt", "out", "1.0", 10⟩
      ["the cat sit"] (fun _ => ["the cat sat"]) _ validate_scenarioB).2.1,
    (claim_C10_files_written_despite_failure ⟨"ckpt/model.pt", "out", "1.0", 10⟩
      ["the cat sit"] (fun _ => ["the cat sat"]) _ validate_scenarioB).2.2⟩

/-! ## TokenDecoder (text_sample.py lines 102-112)

`logits = model.get_logits(x_t)` scores every position against the
vocabulary; `cands = th.topk(logits, k=1, dim=-1)` selects the top-1 index
per position (deterministic, ties to the lowest index), and
`tokenizer[x[0].item()]` maps each index through the tokenizer dictionary,
joined with spaces.  Scores are per-position lists over the vocabulary. -/

/-- Top-1 selection of `th.topk(·, k=1)` on one score row: the index of the
greatest score, ties resolved to the lowest index. -/
def argmaxLowest : List ℚ → ℕ
  | [] => 0
  | [_] => 0
  | x :: y :: ys =>
    if x < (y :: ys).getD (argmaxLowest (y :: ys)) 0 then argmaxLowest (y :: ys) + 1
    else 0

/-- `sample = cands.indices` (lines 105-106): one top-1 vocabulary index per
position. -/
def tokenDecode (logits : List (List ℚ)) : List ℕ :=
  logits.map argmaxLowest

/-- `tokenizer[x]` raised `KeyError` — a fatal decoding failure. -/
inductive DecodingError where
  | keyError : ℕ → DecodingError
deriving DecidableEq

/-- The list comprehension `[tokenizer[x[0].item()] for x in seq]` of
line 111: look every index up in the tokenizer dictionary, aborting with a
`KeyError` at the first index that has no entry. -/
def lookupTokens (tok : ℕ → Option String) : List ℕ → Except DecodingError (List String)
  | [] => .ok []
  | i :: rest =>
    match tok i with
    | none => .error (.keyError i)
    | some s => (lookupTokens tok rest).map (fun ss => s :: ss)

/-- `decoded_sentence = " ".join(...)` (line 111). -/
def decodeSentence (tok : ℕ → Option String) (seq : List ℕ) : Except DecodingError String :=
  (lookupTokens tok seq).map (String.intercalate " ")

/-- Squared Euclidean distance of two embedding vectors. -/
def sqdist (a b : List ℚ) : ℚ :=
  (List.zipWith (fun x y => (x - y) ^ 2) a b).sum

/-- Modelled from the spec: `model.get_logits` (line 104) belongs to the
model code, which is not part of the sources under verification.  Per the
spec, the TokenDecoder scores "each position against the model's vocabulary
projection", the projection is against the frozen `EmbeddingTable`, and ties
"resolve to the lower vocabulary index"; the score of vocabulary entry `v`
for a position embedding `x` is taken as the negated squared Euclidean
distance to the table row of `v` (nearest-embedding scoring, the reading
under which the spec's round-trip property is meant). -/
def specLogits (table : List (List ℚ)) (x : List ℚ) : List ℚ :=
  table.map (fun row => -(sqdist row x))

/-- Encoding a token sequence into continuous embeddings via the
EmbeddingTable: each index is replaced by its table row. -/
def encodeSeq (table : List (List ℚ)) (seq : List ℕ) : List (List ℚ) :=
  seq.map (fun t => table.getD t [])

/-- The TokenDecoder applied to unperturbed embeddings: score each position
with `specLogits` and take the top-1 index per position. -/
def specDecode (table : List (List ℚ)) (embs : List (List ℚ)) : List ℕ :=
  embs.map (fun x => argmaxLowest (specLogits table x))

lemma argmaxLowest_lt_length : ∀ (l : List ℚ), l ≠ [] → argmaxLowest l < l.length
  | [], h => absurd rfl h
  | [_], _ => Nat.zero_lt_one
  | x :: y :: ys, _ => by
    simp only [argmaxLowest]
    split
    · exact Nat.succ_lt_succ (argmaxLowest_lt_length (y :: ys) (by simp))
    · simp

lemma argmaxLowest_is_max : ∀ (l : List ℚ) (j : ℕ), j < l.length →
    l.getD j 0 ≤ l.getD (argmaxLowest l) 0
  | [], j, hj => absurd hj (by simp)
  | [x], j, hj => by
    have hj0 : j = 0 := Nat.lt_one_iff.mp (by simpa using hj)
    subst hj0
    exact le_rfl
  | x :: y :: ys, j, hj => by
    by_cases h : x < (y :: ys).getD (argmaxLowest (y :: ys)) 0
    · simp only [argmaxLowest, if_pos h]
      rw [List.getD_cons_succ]
      cases j with
      | zero => rw [List.getD_cons_zero]; exact le_of_lt h
      | succ j' =>
        rw [List.getD_cons_succ]
        exact argmaxLowest_is_max (y :: ys) j' (by simpa using hj)
    · simp only [argmaxLowest, if_neg h]
      push_neg at h
      rw [List.getD_cons_zero]
      cases j with
      | zero => rw [List.getD_cons_zero]
      | succ j' =>
        rw [List.getD_cons_succ]
        exact le_trans (argmaxLowest_is_max (y :: ys) j' (by simpa using hj)) h

lemma argmaxLowest_le_of_eq : ∀ (l : List ℚ) (j : ℕ), j < l.length →
    l.getD j 0 = l.getD (argmaxLowest l) 0 → argmaxLowest l ≤ j
  | [], j, hj, _ => absurd hj (by simp)
  | [x], j, _, _ => by
    simp only [argmaxLowest]
    exact Nat.zero_le j
  | x :: y :: ys, j, hj, heq => by
    by_cases h : x < (y :: ys).getD (argmaxLowest (y :: ys)) 0
    · simp only [argmaxLowest, if_pos h] at heq ⊢
      rw [List.getD_cons_succ] at heq
      cases j with
      | zero =>
        rw [List.getD_cons_zero] at heq
        exact absurd heq (ne_of_lt h)
      | succ j' =>
        rw [List.getD_cons_succ] at heq
        exact Nat.succ_le_succ
          (argmaxLowest_le_of_eq (y :: ys) j' (by simpa using hj) heq)
    · simp only [argmaxLowest, if_neg h]
      exact Nat.zero_le j

lemma tokenDecode_getD (logits : List (List ℚ)) (p : ℕ) (hp : p < logits.length) :
    (tokenDecode logits).getD p 0 = argmaxLowest (logits.getD p []) := by
  rw [tokenDecode, List.getD_eq_getElem?_getD, List.getElem?_map,
    List.getD_eq_getElem?_getD, List.getElem?_eq_getElem hp]
  rfl

/-- **C7.** Per position, the decoder picks an in-range top-1 index: its
score is maximal over the whole vocabulary, and any position with an equal
score has an index no smaller (ties resolve to the lowest index).  The
decoder is a pure function, so identical score tensors decode identically. -/
theorem claim_C7_decoder_top1_lowest_tie :
    (∀ (logits : List (List ℚ)) (p : ℕ), p < logits.length →
      logits.getD p [] ≠ [] →
      (tokenDecode logits).getD p 0 < (logits.getD p []).length ∧
      (∀ j, j < (logits.getD p []).length →
        (logits.getD p []).getD j 0
          ≤ (logits.getD p []).getD ((tokenDecode logits).getD p 0) 0) ∧
      (∀ j, j < (logits.getD p []).length →
        (logits.getD p []).getD j 0
            = (logits.getD p []).getD ((tokenDecode logits).getD p 0) 0 →
        (tokenDecode logits).getD p 0 ≤ j)) ∧
    (∀ s t : List (List ℚ), s = t → tokenDecode s = tokenDecode t) := by
  constructor
  · intro logits p hp hrow
    rw [tokenDecode_getD logits p hp]
    exact ⟨argmaxLowest_lt_length _ hrow,
      fun j hj => argmaxLowest_is_max _ j hj,
      fun j hj hje => argmaxLowest_le_of_eq _ j hj hje⟩
  · intro s t h
    rw [h]

/-- **C7 witness.** Score rows `[1, 2, 2]` and `[5]`: position 0 has its
maximal score `2` first at index 1, and the decoder's choices satisfy all
three properties. -/
theorem claim_C7_decoder_top1_lowest_tie_witness :
    ((tokenDecode [[1, 2, 2], [5]]).getD 0 0 < ([[(1 : ℚ), 2, 2], [5]].getD 0 []).length ∧
      (∀ j, j < ([[(1 : ℚ), 2, 2], [5]].getD 0 []).length →
        ([[(1 : ℚ), 2, 2], [5]].getD 0 []).getD j 0
          ≤ ([[(1 : ℚ), 2, 2], [5]].getD 0 []).getD ((tokenDecode [[1, 2, 2], [5]]).getD 0 0) 0) ∧
      (∀ j, j < ([[(1 : ℚ), 2, 2], [5]].getD 0 []).length →
        ([[(1 : ℚ), 2, 2], [5]].getD 0 []).getD j 0
            = ([[(1 : ℚ), 2, 2], [5]].getD 0 []).getD ((tokenDecode [[1, 2, 2], [5]]).getD 0 0) 0 →
        (tokenDecode [[1, 2, 2], [5]]).getD 0 0 ≤ j)) ∧
    tokenDecode [[(1 : ℚ), 2, 2], [5]] = [1, 0] :=
  ⟨claim_C7_decoder_top1_lowest_tie.1 [[1, 2, 2], [5]] 0 (by decide) (by decide),
    by decide⟩

lemma lookupTokens_ok (tok : ℕ → Option String) :
    ∀ (seq : List ℕ), (∀ i ∈ seq, (tok i).isSome) →
      lookupTokens tok seq = .ok (seq.map (fun i => (tok i).getD ""))
  | [], _ => rfl
  | i :: rest, h => by
    obtain ⟨s, hs⟩ := Option.isSome_iff_exists.mp (h i (List.mem_cons_self i rest))
    simp only [lookupTokens, hs,
      lookupTokens_ok tok rest (fun j hj => h j (List.mem_cons_of_mem i hj))]
    simp [Except.map, hs]

lemma lookupTokens_err (tok : ℕ → Option String) :
    ∀ (seq : List ℕ), (∃ i ∈ seq, tok i = none) →
      ∃ why, tok why = none ∧ lookupTokens tok seq = .error (.keyError why)
  | [], h => by
    obtain ⟨i, hmem, _⟩ := h
    exact absurd hmem (List.not_mem_nil i)
  | i :: rest, h => by
    obtain ⟨j, hmem, hnone⟩ := h
    cases htok : tok i with
    | none => exact ⟨i, htok, by simp only [lookupTokens, htok]⟩
    | some s =>
      have hjr : j ∈ rest := by
        rcases List.mem_cons.mp hmem with rfl | hr
        · rw [htok] at hnone; cases hnone
        · exact hr
      obtain ⟨why, hwhy, herr⟩ := lookupTokens_err tok rest ⟨j, hjr, hnone⟩
      refine ⟨why, hwhy, ?_⟩
      simp only [lookupTokens, htok, herr]
      rfl

/-- **C8.** Index-to-string mapping goes through the tokenizer dictionary:
if every decoded index has an entry, the lookup succeeds and position `j` of
the result is exactly the table entry of index `j` of the sequence; if any
index has no entry, the lookup (and the sentence join built on it) fails
with a fatal `DecodingError` naming an unmapped index — it never returns a
result, so no index is silently mapped to an empty or placeholder string. -/
theorem claim_C8_unmapped_index_fatal (tok : ℕ → Option String) (seq : List ℕ) :
    ((∀ i ∈ seq, (tok i).isSome) →
      lookupTokens tok seq = .ok (seq.map (fun i => (tok i).getD "")) ∧
      (∀ j, j < seq.length →
        tok (seq.getD j 0) = some ((seq.map (fun i => (tok i).getD "")).getD j "")) ∧
      decodeSentence tok seq
        = .ok (String.intercalate " " (seq.map (fun i => (tok i).getD "")))) ∧
    ((∃ i ∈ seq, tok i = none) →
      (∃ why, tok why = none ∧
        lookupTokens tok seq = .error (.keyError why) ∧
        decodeSentence tok seq = .error (.keyError why)) ∧
      (∀ ss, lookupTokens tok seq ≠ .ok ss) ∧
      (∀ s, decodeSentence tok seq ≠ .ok s)) := by
  constructor
  · intro h
    have hok := lookupTokens_ok tok seq h
    refine ⟨hok, ?_, ?_⟩
    · intro j hj
      rw [List.getD_eq_getElem?_getD seq, List.getElem?_eq_getElem hj,
        List.getD_eq_getElem?_getD, List.getElem?_map, List.getElem?_eq_getElem hj]
      obtain ⟨s, hs⟩ := Option.isSome_iff_exists.mp (h (seq[j]) (List.getElem_mem hj))
      simp [hs]
    · rw [decodeSentence, hok]
      rfl
  · intro h
    obtain ⟨why, hwhy, herr⟩ := lookupTokens_err tok seq h
    refine ⟨⟨why, hwhy, herr, by rw [decodeSentence, herr]; rfl⟩, ?_, ?_⟩
    · intro ss hss
      rw [herr] at hss
      cases hss
    · intro s hs
      rw [decodeSentence, herr] at hs
      cases hs

/-- **C8 witness.** A three-entry tokenizer: the sequence `[2, 0]` decodes to
its table entries; the sequence `[2, 7]`, whose index 7 has no entry, is a
fatal `KeyError`, not a placeholder. -/
theorem claim_C8_unmapped_index_fatal_witness :
    lookupTokens (fun i => ["the", "cat", "sat"][i]?) [2, 0]
      = .ok ([2, 0].map (fun i => (["the", "cat", "sat"][i]?).getD "")) ∧
    (∃ why, (fun i => ["the", "cat", "sat"][i]?) why = none ∧
      lookupTokens (fun i => ["the", "cat", "sat"][i]?) [2, 7]
        = .error (.keyError why) ∧
      decodeSentence (fun i => ["the", "cat", "sat"][i]?) [2, 7]
        = .error (.keyError why)) :=
  ⟨(claim_C8_unmapped_index_fatal (fun i => ["the", "cat", "sat"][i]?) [2, 0]).1
      (by decide) |>.1,
    ((claim_C8_unmapped_index_fatal (fun i => ["the", "cat", "sat"][i]?) [2, 7]).2
      ⟨7, by decide, by decide⟩).1⟩

lemma sqdist_nonneg : ∀ (a b : List ℚ), 0 ≤ sqdist a b
  | [], _ => by simp [sqdist]
  | _ :: _, [] => by simp [sqdist]
  | x :: a, y :: b => by
    rw [sqdist, List.zipWith_cons_cons, List.sum_cons]
    exact add_nonneg (sq_nonneg _) (sqdist_nonneg a b)

lemma sqdist_self : ∀ (a : List ℚ), sqdist a a = 0
  | [] => by simp [sqdist]
  | x :: a => by
    rw [sqdist, List.zipWith_cons_cons, List.sum_cons, sub_self]
    rw [show ((0 : ℚ) ^ 2) = 0 from by norm_num, zero_add]
    exact sqdist_self a

lemma eq_of_sqdist_eq_zero : ∀ (a b : List ℚ), a.length = b.length →
    sqdist a b = 0 → a = b
  | [], [], _, _ => rfl
  | [], _ :: _, hlen, _ => by cases hlen
  | _ :: _, [], hlen, _ => by cases hlen
  | x :: a, y :: b, hlen, hsum => by
    have hsum' : (x - y) ^ 2 + sqdist a b = 0 := by
      rw [sqdist, List.zipWith_cons_cons, List.sum_cons] at hsum
      exact hsum
    have h1 : 0 ≤ (x - y) ^ 2 := sq_nonneg _
    have h2 : 0 ≤ sqdist a b := sqdist_nonneg a b
    have hxy : x = y := by
      have hz : (x - y) ^ 2 = 0 := by linarith
      have := (pow_eq_zero_iff two_ne_zero).mp hz
      exact sub_eq_zero.mp this
    have htail : a = b := eq_of_sqdist_eq_zero a b
      (Nat.succ_injective (by simpa using hlen)) (by linarith)
    rw [hxy, htail]

lemma specLogits_getD (table : List (List ℚ)) (x : List ℚ) (j : ℕ)
    (hj : j < table.length) :
    (specLogits table x).getD j 0 = -(sqdist (table.getD j []) x) := by
  rw [specLogits, List.getD_eq_getElem?_getD, List.getElem?_map,
    List.getElem?_eq_getElem hj, List.getD_eq_getElem?_getD,
    List.getElem?_eq_getElem hj]
  rfl

/-- With pairwise-distinct rows of a common length, the nearest-embedding
scores of a table row peak exactly (and only) at its own index, so the top-1
choice recovers the index. -/
lemma argmax_specLogits_row (table : List (List ℚ)) (d t : ℕ)
    (hd : ∀ row ∈ table, row.length = d) (hnodup : table.Nodup)
    (ht : t < table.length) :
    argmaxLowest (specLogits table (table.getD t [])) = t := by
  have hlen : (specLogits table (table.getD t [])).length = table.length := by
    simp [specLogits]
  have hne : specLogits table (table.getD t []) ≠ [] := by
    intro h
    rw [h] at hlen
    simp at hlen
    omega
  have hr : argmaxLowest (specLogits table (table.getD t []))
      < (specLogits table (table.getD t [])).length :=
    argmaxLowest_lt_length _ hne
  have hrt : argmaxLowest (specLogits table (table.getD t [])) < table.length :=
    hlen ▸ hr
  have hself : (specLogits table (table.getD t [])).getD t 0 = 0 := by
    rw [specLogits_getD table _ t ht, sqdist_self, neg_zero]
  have hmax : (specLogits table (table.getD t [])).getD t 0
      ≤ (specLogits table (table.getD t [])).getD
          (argmaxLowest (specLogits table (table.getD t []))) 0 :=
    argmaxLowest_is_max _ t (hlen ▸ ht)
  have hrval : (specLogits table (table.getD t [])).getD
      (argmaxLowest (specLogits table (table.getD t []))) 0
      = -(sqdist (table.getD (argmaxLowest (specLogits table (table.getD t []))) [])
          (table.getD t [])) :=
    specLogits_getD table _ _ hrt
  have h0 : sqdist (table.getD (argmaxLowest (specLogits table (table.getD t []))) [])
      (table.getD t []) = 0 := by
    refine le_antisymm ?_ (sqdist_nonneg _ _)
    rw [hself, hrval] at hmax
    linarith
  have hmemr : table.getD (argmaxLowest (specLogits table (table.getD t []))) [] ∈ table := by
    rw [List.getD_eq_getElem table [] hrt]
    exact List.getElem_mem hrt
  have hmemt : table.getD t [] ∈ table := by
    rw [List.getD_eq_getElem table [] ht]
    exact List.getElem_mem ht
  have hre' : table.get ⟨argmaxLowest (specLogits table (table.getD t [])), hrt⟩
      = table.get ⟨t, ht⟩ := by
    rw [List.get_eq_getElem, List.get_eq_getElem,
      ← List.getD_eq_getElem table [] hrt, ← List.getD_eq_getElem table [] ht]
    exact eq_of_sqdist_eq_zero _ _ (by rw [hd _ hmemr, hd _ hmemt]) h0
  have hfin := (List.Nodup.get_inj_iff hnodup).mp hre'
  simpa using hfin

/-- **C9 (amended).** Provided the embedding table's rows are pairwise
distinct and of a common dimension, encoding any in-vocabulary token
sequence into embeddings and decoding those unperturbed embeddings with the
top-1 decoder recovers the sequence exactly. -/
theorem claim_C9_roundtrip_nondegenerate (table : List (List ℚ)) (d : ℕ)
    (seq : List ℕ)
    (hd : ∀ row ∈ table, row.length = d) (hnodup : table.Nodup)
    (hseq : ∀ t ∈ seq, t < table.length) :
    specDecode table (encodeSeq table seq) = seq := by
  rw [specDecode, encodeSeq, List.map_map]
  have hcongr : seq.map ((fun x => argmaxLowest (specLogits table x))
      ∘ (fun t => table.getD t [])) = seq.map id :=
    List.map_congr_left (fun t ht =>
      argmax_specLogits_row table d t hd hnodup (hseq t ht))
  simpa using hcongr

/-- **C9 witness.** Table `[[0], [1]]` (distinct rows, dimension 1): the
sequence `[1, 0]` round-trips exactly. -/
theorem claim_C9_roundtrip_nondegenerate_witness :
    specDecode [[(0 : ℚ)], [1]] (encodeSeq [[(0 : ℚ)], [1]] [1, 0]) = [1, 0] :=
  claim_C9_roundtrip_nondegenerate [[(0 : ℚ)], [1]] 1 [1, 0]
    (by decide) (by decide) (by decide)

/-- **C9 counterexample.** The claim as stated is false: for the (legal but
degenerate) embedding table `[[0], [0]]`, whose two vocabulary entries share
one embedding vector, the token sequence `[1]` encodes to `[[0]]` but
decodes to `[0]` (ties resolve to the lowest index), not back to `[1]`. -/
theorem claim_C9_counterexample :
    encodeSeq [[(0 : ℚ)], [0]] [1] = [[0]] ∧
    specDecode [[(0 : ℚ)], [0]] (encodeSeq [[(0 : ℚ)], [0]] [1]) = [0] ∧
    specDecode [[(0 : ℚ)], [0]] (encodeSeq [[(0 : ℚ)], [0]] [1]) ≠ [1] := by
  have hsq : sqdist [(0 : ℚ)] [0] = 0 := by simp [sqdist]
  have hlog : specLogits [[(0 : ℚ)], [0]] [0] = [0, 0] := by
    simp [specLogits, hsq]
  have harg : argmaxLowest [(0 : ℚ), 0] = 0 := by
    simp [argmaxLowest]
  have hdec : specDecode [[(0 : ℚ)], [0]] (encodeSeq [[(0 : ℚ)], [0]] [1]) = [0] := by
    show [argmaxLowest (specLogits [[(0 : ℚ)], [0]] [0])] = [0]
    rw [hlog, harg]
  exact ⟨rfl, hdec, by rw [hdec]; decide⟩

end TextSample
